import Mathlib

/-!
# PNGme — verification of the PNG chunk container core

A shallow embedding of the repository's core (`src/chunk_type.rs`,
`src/chunk.rs`, and the spec-level `Png` chunk container), with theorems
settling the specification claims.

Conventions of the embedding:
* Rust `u8` / `u32` values are `Nat`s; byte buffers are `List Nat` with a
  `< 256` bound carried as a hypothesis where it matters.
* A Rust function that can panic (out-of-bounds slice index, `unwrap` of
  `None`, `Vec::split_off` past the end, failed `try_into().expect`) is
  modelled with result type `Option _`: `none` is a panic (abrupt abort),
  `some r` the returned value.
* Fallible returns (`Result`) are `Except String _`, matching the source's
  `&'static str` error type.
-/

namespace Pngme

/-- `u32::from_be_bytes` on a 4-byte list: big-endian value of the bytes. -/
def u32_from_be_bytes (l : List Nat) : Nat :=
  ((l.getD 0 0 * 256 + l.getD 1 0) * 256 + l.getD 2 0) * 256 + l.getD 3 0

/-- `u32::to_be_bytes`: big-endian byte decomposition of a `u32` value. -/
def u32_to_be_bytes (n : Nat) : List Nat :=
  [n / 16777216 % 256, n / 65536 % 256, n / 256 % 256, n % 256]

/-! ## CRC-32/IEEE (`crc::crc32::checksum_ieee`)

The `crc` crate's `checksum_ieee`: reflected CRC-32 with polynomial
`0xEDB88320`, initial value `0xFFFFFFFF` and final XOR `0xFFFFFFFF`,
processing each byte LSB-first. -/

/-- The reflected CRC-32/IEEE polynomial. -/
def CRC_POLY : Nat := 0xEDB88320

/-- One LFSR bit step: shift right, XOR the polynomial in when the low bit
was set. -/
def crcBitStep (c : Nat) : Nat :=
  if c % 2 = 1 then c / 2 ^^^ CRC_POLY else c / 2

/-- `n` iterated bit steps. -/
def crcBitSteps : Nat → Nat → Nat
  | 0, c => c
  | n + 1, c => crcBitSteps n (crcBitStep c)

/-- Absorb one byte: XOR it into the state, then run 8 bit steps. -/
def crcByteStep (c b : Nat) : Nat :=
  crcBitSteps 8 (c ^^^ b)

/-- `crc::crc32::checksum_ieee` over a byte list. -/
def checksum_ieee (data : List Nat) : Nat :=
  data.foldl crcByteStep 0xFFFFFFFF ^^^ 0xFFFFFFFF

/-! ## ChunkType (`src/chunk_type.rs`) -/

/-- The `ChunkType` struct: four raw bytes. -/
structure ChunkType where
  first_byte : Nat
  second_byte : Nat
  third_byte : Nat
  fourth_byte : Nat
deriving DecidableEq

/-- `ChunkType::try_from([u8;4])`: structural construction, always `Ok`. -/
def ChunkType.try_from (value : List Nat) : Except String ChunkType :=
  Except.ok
    { first_byte := value.getD 0 0
      second_byte := value.getD 1 0
      third_byte := value.getD 2 0
      fourth_byte := value.getD 3 0 }

/-- `ChunkType::is_valid_byte`: ASCII alphabetic test. -/
def ChunkType.is_valid_byte (b : Nat) : Bool :=
  (65 ≤ b && b ≤ 90) || (97 ≤ b && b ≤ 122)

/-- `ChunkType::is_upper`: ASCII uppercase test. -/
def ChunkType.is_upper (b : Nat) : Bool :=
  65 ≤ b && b ≤ 90

/-- `ChunkType::from_str`, on the UTF-8 bytes of the input string.
`bytes.get(i).unwrap()` panics (`none`) when the string has fewer than 4
bytes; otherwise the first four bytes are taken and all four are required
to pass `is_valid_byte`. -/
def ChunkType.from_str (s : List Nat) : Option (Except String ChunkType) :=
  match s with
  | a :: b :: c :: d :: _ =>
    let result : ChunkType :=
      { first_byte := a, second_byte := b, third_byte := c, fourth_byte := d }
    if ChunkType.is_valid_byte result.first_byte
        && ChunkType.is_valid_byte result.second_byte
        && ChunkType.is_valid_byte result.third_byte
        && ChunkType.is_valid_byte result.fourth_byte then
      some (Except.ok result)
    else
      some (Except.error "Not a valid Chunk Byte")
  | _ => none

/-- `ChunkType::bytes`. -/
def ChunkType.bytes (ct : ChunkType) : List Nat :=
  [ct.first_byte, ct.second_byte, ct.third_byte, ct.fourth_byte]

/-- `ChunkType::is_valid`. -/
def ChunkType.is_valid (ct : ChunkType) : Bool :=
  ChunkType.is_valid_byte ct.first_byte
    && ChunkType.is_valid_byte ct.second_byte
    && ChunkType.is_upper ct.third_byte
    && ChunkType.is_valid_byte ct.fourth_byte

/-- `ChunkType::is_critical`. -/
def ChunkType.is_critical (ct : ChunkType) : Bool :=
  ChunkType.is_upper ct.first_byte

/-- `ChunkType::is_public`. -/
def ChunkType.is_public (ct : ChunkType) : Bool :=
  ChunkType.is_upper ct.second_byte

/-- `ChunkType::is_reserved_bit_valid`. -/
def ChunkType.is_reserved_bit_valid (ct : ChunkType) : Bool :=
  ChunkType.is_upper ct.third_byte

/-- `ChunkType::is_safe_to_copy`: negation of `is_upper` on the fourth
byte (NOT a lowercase test). -/
def ChunkType.is_safe_to_copy (ct : ChunkType) : Bool :=
  ! ChunkType.is_upper ct.fourth_byte

/-- UTF-8 encoding of the Unicode code point `b`, for `b < 2048` (a Rust
`u8 as char` cast always stays below 256): one byte below 128, two bytes
otherwise. -/
def charAsUtf8 (b : Nat) : List Nat :=
  if b < 128 then [b] else [192 + b / 64, 128 + b % 64]

/-- The UTF-8 bytes of `ChunkType`'s `Display` output
(`format!("{}{}{}{}", b1 as char, b2 as char, b3 as char, b4 as char)`). -/
def ChunkType.to_string_bytes (ct : ChunkType) : List Nat :=
  charAsUtf8 ct.first_byte ++ charAsUtf8 ct.second_byte
    ++ charAsUtf8 ct.third_byte ++ charAsUtf8 ct.fourth_byte

/-! ## Chunk (`src/chunk.rs`) -/

/-- The `Chunk` struct. -/
structure Chunk where
  data_length : Nat
  chunk_type : ChunkType
  message_bytes : List Nat
  crc : Nat
deriving DecidableEq

/-- `Chunk::try_from(&[u8])`. Faithful to the source's panic points:
`sequence[0..4]` and `sequence[4..8]` panic on a buffer shorter than 8;
`split_off(data_length)` panics when the declared length exceeds the
bytes remaining after the header; the `try_into().expect` on the tail
panics unless exactly 4 bytes remain for the CRC. The only typed error
is `"checksum failed"`. -/
def Chunk.try_from (sequence : List Nat) : Option (Except String Chunk) :=
  if sequence.length < 4 then none
  else if sequence.length < 8 then none
  else
    let data_length := u32_from_be_bytes (sequence.take 4)
    let chunk_type : ChunkType :=
      { first_byte := sequence.getD 4 0
        second_byte := sequence.getD 5 0
        third_byte := sequence.getD 6 0
        fourth_byte := sequence.getD 7 0 }
    let message_all := sequence.drop 8
    if message_all.length < data_length then none
    else
      let message_bytes := message_all.take data_length
      let crc_tail := message_all.drop data_length
      if crc_tail.length ≠ 4 then none
      else
        let crc := u32_from_be_bytes crc_tail
        let check_bytes := (sequence.take (sequence.length - 4)).drop 4
        if checksum_ieee check_bytes ≠ crc then
          some (Except.error "checksum failed")
        else
          some (Except.ok
            { data_length := data_length
              chunk_type := chunk_type
              message_bytes := message_bytes
              crc := crc })

/-- `Chunk::as_bytes`: length (BE) ++ UTF-8 of the type's `Display`
string ++ payload ++ CRC (BE). -/
def Chunk.as_bytes (c : Chunk) : List Nat :=
  u32_to_be_bytes c.data_length ++ c.chunk_type.to_string_bytes
    ++ c.message_bytes ++ u32_to_be_bytes c.crc

/-- `Chunk::new`: length is `message_bytes.len() as u32` (truncating),
CRC is `checksum_ieee` over type bytes ++ payload. -/
def Chunk.new (chunk_type : ChunkType) (message_bytes : List Nat) : Chunk :=
  { data_length := message_bytes.length % 4294967296
    chunk_type := chunk_type
    message_bytes := message_bytes
    crc := checksum_ieee (chunk_type.bytes ++ message_bytes) }

/-! ## Png (the image-level chunk container)

`src/png.rs` is declared (`mod png;`) and used by `src/commands.rs` but the
file itself is not present under `src/`; the container operations are
modelled from the spec. -/

/-- Modelled from the spec: the missing `Png` struct of `src/png.rs` — an
ordered sequence of chunks (spec §3: "an ordered sequence of Chunks;
order is significant"). -/
structure Png where
  chunks : List Chunk
deriving DecidableEq

/-- Modelled from the spec: the scan inside the missing
`Png::remove_chunk` — "scans chunks in order, removes and returns the
first whose type's string form equals `type_str`" (spec §4.3); `none`
when no chunk matches. -/
def removeFirstChunk (type_str : List Nat) : List Chunk → Option (Chunk × List Chunk)
  | [] => none
  | c :: rest =>
    if c.chunk_type.to_string_bytes = type_str then some (c, rest)
    else
      match removeFirstChunk type_str rest with
      | some (r, rest2) => some (r, c :: rest2)
      | none => none

/-- Modelled from the spec: the missing `Png::remove_chunk` —
"removes and returns the first whose type's string form equals
`type_str`; fails with NotFound if no match" (spec §4.3), with failure
leaving the image unmodified (spec §7/§8). The pair is (result,
post-state image). -/
def Png.remove_chunk (png : Png) (type_str : List Nat) : Except String Chunk × Png :=
  match removeFirstChunk type_str png.chunks with
  | some (c, rest) => (Except.ok c, { chunks := rest })
  | none => (Except.error "NotFound", png)

/-- Modelled from the spec: the insertion of the missing
`Png::append_chunk` — "inserts the chunk immediately before the last
chunk in the sequence" (spec §4.3); the empty-sequence case is
"undefined in the reference" (spec §9) and modelled as a plain append. -/
def insertBeforeLast (chunk : Chunk) : List Chunk → List Chunk
  | [] => [chunk]
  | [last] => [chunk, last]
  | c :: rest => c :: insertBeforeLast chunk rest

/-- Modelled from the spec: the missing `Png::append_chunk` (spec §4.3). -/
def Png.append_chunk (png : Png) (chunk : Chunk) : Png :=
  { chunks := insertBeforeLast chunk png.chunks }

/-! ## CRC-32 state lemmas

The CRC state stays below `2 ^ 32` and every step is injective on that
range; consequently two byte streams that differ in one byte (all bytes
below 256) have different checksums. -/

theorem crcBitStep_lt {c : Nat} (h : c < 2 ^ 32) : crcBitStep c < 2 ^ 32 := by
  unfold crcBitStep
  split
  · exact Nat.xor_lt_two_pow (by omega) (by decide)
  · omega

theorem crcBitStep_inj {c1 c2 : Nat} (h1 : c1 < 2 ^ 32) (h2 : c2 < 2 ^ 32)
    (h : crcBitStep c1 = crcBitStep c2) : c1 = c2 := by
  unfold crcBitStep at h
  split at h <;> split at h
  · have := Nat.xor_left_inj.mp h
    omega
  · exfalso
    have h31 : (c1 / 2 ^^^ CRC_POLY).testBit 31 = true := by
      rw [Nat.testBit_xor, Nat.testBit_lt_two_pow (show c1 / 2 < 2 ^ 31 by omega)]
      decide
    rw [h, Nat.testBit_lt_two_pow (show c2 / 2 < 2 ^ 31 by omega)] at h31
    exact Bool.false_ne_true h31
  · exfalso
    have h31 : (c2 / 2 ^^^ CRC_POLY).testBit 31 = true := by
      rw [Nat.testBit_xor, Nat.testBit_lt_two_pow (show c2 / 2 < 2 ^ 31 by omega)]
      decide
    rw [← h, Nat.testBit_lt_two_pow (show c1 / 2 < 2 ^ 31 by omega)] at h31
    exact Bool.false_ne_true h31
  · omega

theorem crcBitSteps_lt (n : Nat) {c : Nat} (h : c < 2 ^ 32) :
    crcBitSteps n c < 2 ^ 32 := by
  induction n generalizing c with
  | zero => exact h
  | succ n ih => exact ih (crcBitStep_lt h)

theorem crcBitSteps_inj (n : Nat) {c1 c2 : Nat} (h1 : c1 < 2 ^ 32)
    (h2 : c2 < 2 ^ 32) (h : crcBitSteps n c1 = crcBitSteps n c2) : c1 = c2 := by
  induction n generalizing c1 c2 with
  | zero => exact h
  | succ n ih =>
    exact crcBitStep_inj h1 h2 (ih (crcBitStep_lt h1) (crcBitStep_lt h2) h)

theorem crcByteStep_lt {c b : Nat} (hc : c < 2 ^ 32) (hb : b < 256) :
    crcByteStep c b < 2 ^ 32 :=
  crcBitSteps_lt 8 (Nat.xor_lt_two_pow hc (by omega))

theorem crcByteStep_state_ne {c1 c2 b : Nat} (h1 : c1 < 2 ^ 32)
    (h2 : c2 < 2 ^ 32) (hb : b < 256) (hne : c1 ≠ c2) :
    crcByteStep c1 b ≠ crcByteStep c2 b := by
  intro h
  exact hne (Nat.xor_left_inj.mp
    (crcBitSteps_inj 8 (Nat.xor_lt_two_pow h1 (by omega))
      (Nat.xor_lt_two_pow h2 (by omega)) h))

theorem crcByteStep_byte_ne {c b1 b2 : Nat} (hc : c < 2 ^ 32)
    (hb1 : b1 < 256) (hb2 : b2 < 256) (hne : b1 ≠ b2) :
    crcByteStep c b1 ≠ crcByteStep c b2 := by
  intro h
  exact hne (Nat.xor_right_inj.mp
    (crcBitSteps_inj 8 (Nat.xor_lt_two_pow hc (by omega))
      (Nat.xor_lt_two_pow hc (by omega)) h))

theorem foldl_crcByteStep_lt (l : List Nat) (hl : ∀ b ∈ l, b < 256)
    {c : Nat} (hc : c < 2 ^ 32) : l.foldl crcByteStep c < 2 ^ 32 := by
  induction l generalizing c with
  | nil => exact hc
  | cons b t ih =>
    exact ih (fun x hx => hl x (List.mem_cons_of_mem _ hx))
      (crcByteStep_lt hc (hl b (List.mem_cons_self _ _)))

theorem foldl_crcByteStep_ne (l : List Nat) (hl : ∀ b ∈ l, b < 256)
    {c1 c2 : Nat} (h1 : c1 < 2 ^ 32) (h2 : c2 < 2 ^ 32) (hne : c1 ≠ c2) :
    l.foldl crcByteStep c1 ≠ l.foldl crcByteStep c2 := by
  induction l generalizing c1 c2 with
  | nil => exact hne
  | cons b t ih =>
    have hb : b < 256 := hl b (List.mem_cons_self _ _)
    exact ih (fun x hx => hl x (List.mem_cons_of_mem _ hx))
      (crcByteStep_lt h1 hb) (crcByteStep_lt h2 hb)
      (crcByteStep_state_ne h1 h2 hb hne)

theorem foldl_crcByteStep_set_ne (l : List Nat) (hl : ∀ b ∈ l, b < 256)
    {c : Nat} (hc : c < 2 ^ 32) (i v : Nat) (hi : i < l.length)
    (hv : v < 256) (hne : v ≠ l.getD i 0) :
    (l.set i v).foldl crcByteStep c ≠ l.foldl crcByteStep c := by
  induction l generalizing c i with
  | nil => simp at hi
  | cons b t ih =>
    cases i with
    | zero =>
      simp only [List.set_cons_zero, List.foldl_cons]
      simp only [List.getD_cons_zero] at hne
      have hb : b < 256 := hl b (List.mem_cons_self _ _)
      exact foldl_crcByteStep_ne t
        (fun x hx => hl x (List.mem_cons_of_mem _ hx))
        (crcByteStep_lt hc hv) (crcByteStep_lt hc hb)
        (crcByteStep_byte_ne hc hv hb hne)
    | succ i =>
      simp only [List.set_cons_succ, List.foldl_cons]
      simp only [List.getD_cons_succ] at hne
      have hb : b < 256 := hl b (List.mem_cons_self _ _)
      exact ih (fun x hx => hl x (List.mem_cons_of_mem _ hx))
        (crcByteStep_lt hc hb) i (by simpa using hi) hne

theorem checksum_ieee_lt (data : List Nat) (h : ∀ b ∈ data, b < 256) :
    checksum_ieee data < 2 ^ 32 := by
  unfold checksum_ieee
  exact Nat.xor_lt_two_pow (foldl_crcByteStep_lt data h (by decide)) (by decide)

theorem checksum_ieee_set_ne (data : List Nat) (hdata : ∀ b ∈ data, b < 256)
    {i v : Nat} (hi : i < data.length) (hv : v < 256)
    (hne : v ≠ data.getD i 0) :
    checksum_ieee (data.set i v) ≠ checksum_ieee data := by
  unfold checksum_ieee
  intro h
  exact foldl_crcByteStep_set_ne data hdata (by decide) i v hi hv hne
    (Nat.xor_left_inj.mp h)

/-! ## Byte-level helpers -/

theorem length_u32_to_be_bytes (n : Nat) : (u32_to_be_bytes n).length = 4 := rfl

theorem u32_to_be_bytes_lt (n : Nat) : ∀ b ∈ u32_to_be_bytes n, b < 256 := by
  unfold u32_to_be_bytes
  intro b hb
  simp only [List.mem_cons, List.not_mem_nil, or_false] at hb
  rcases hb with h | h | h | h <;> omega

theorem u32_from_be_to_be (n : Nat) (h : n < 2 ^ 32) :
    u32_from_be_bytes (u32_to_be_bytes n) = n := by
  unfold u32_from_be_bytes u32_to_be_bytes
  simp only [List.getD_cons_zero, List.getD_cons_succ]
  omega

/-- The central decode computation: on an exactly framed buffer
`L ++ (TM ++ C)` (4-byte length field `L` declaring `TM.length - 4`,
type-and-payload region `TM`, 4-byte CRC field `C`), `Chunk::try_from`
reaches the checksum test and never panics. -/
theorem try_from_framed (L TM C : List Nat) (hL : L.length = 4)
    (hC : C.length = 4) (hTM : 4 ≤ TM.length)
    (hdl : u32_from_be_bytes L = TM.length - 4) :
    Chunk.try_from (L ++ (TM ++ C)) =
      if checksum_ieee TM ≠ u32_from_be_bytes C then
        some (Except.error "checksum failed")
      else
        some (Except.ok
          { data_length := TM.length - 4
            chunk_type :=
              { first_byte := TM.getD 0 0
                second_byte := TM.getD 1 0
                third_byte := TM.getD 2 0
                fourth_byte := TM.getD 3 0 }
            message_bytes := TM.drop 4
            crc := u32_from_be_bytes C }) := by
  have h2 : (L ++ (TM ++ C)).length = TM.length + 8 := by
    simp only [List.length_append, hL, hC]
    omega
  have h1 : (L ++ (TM ++ C)).take 4 = L := List.take_left' hL
  have h3 : (L ++ (TM ++ C)).drop 8 = TM.drop 4 ++ C := by
    rw [List.drop_append_eq_append_drop, List.drop_eq_nil_of_le (by omega),
      List.drop_append_eq_append_drop, hL]
    simp only [List.nil_append]
    rw [show 8 - 4 = 4 from rfl, Nat.sub_eq_zero_of_le hTM, List.drop_zero]
  have hgetD : ∀ k, k < 4 → (L ++ (TM ++ C)).getD (4 + k) 0 = TM.getD k 0 := by
    intro k hk
    rw [List.getD_append_right _ _ _ _ (by omega), hL]
    rw [show 4 + k - 4 = k by omega]
    exact List.getD_append _ _ _ _ (by omega)
  have hcheck : ((L ++ (TM ++ C)).take ((L ++ (TM ++ C)).length - 4)).drop 4
      = TM := by
    rw [h2, show TM.length + 8 - 4 = TM.length + 4 by omega,
      List.take_append_eq_append_take, List.take_of_length_le (by omega),
      hL, show TM.length + 4 - 4 = TM.length by omega,
      List.take_append_eq_append_take, List.take_length,
      Nat.sub_self, List.take_zero, List.append_nil,
      List.drop_left' hL]
  have hmsgall_len : (TM.drop 4 ++ C).length = TM.length := by
    simp only [List.length_append, List.length_drop, hC]
    omega
  have htakedl : (TM.drop 4 ++ C).take (TM.length - 4) = TM.drop 4 :=
    List.take_left' (by simp only [List.length_drop])
  have hdropdl : (TM.drop 4 ++ C).drop (TM.length - 4) = C :=
    List.drop_left' (by simp only [List.length_drop])
  unfold Chunk.try_from
  rw [if_neg (by omega), if_neg (by omega), h1, h3, hdl]
  rw [if_neg (by rw [hmsgall_len]; omega)]
  rw [htakedl, hdropdl, if_neg (by rw [hC]; omega)]
  rw [hcheck]
  have g4 := hgetD 0 (by omega)
  have g5 := hgetD 1 (by omega)
  have g6 := hgetD 2 (by omega)
  have g7 := hgetD 3 (by omega)
  simp only [show (4:Nat) + 0 = 4 from rfl, show (4:Nat) + 1 = 5 from rfl,
    show (4:Nat) + 2 = 6 from rfl, show (4:Nat) + 3 = 7 from rfl] at g4 g5 g6 g7
  rw [g4, g5, g6, g7]

/-- Inversion: everything `Chunk.try_from s = Ok c` forces — the exact
framing `s.length = 12 + data_length` and the origin of every field. -/
theorem try_from_ok_inv {s : List Nat} {c : Chunk}
    (h : Chunk.try_from s = some (Except.ok c)) :
    s.length = 12 + c.data_length ∧
    c.data_length = u32_from_be_bytes (s.take 4) ∧
    c.chunk_type =
      { first_byte := s.getD 4 0
        second_byte := s.getD 5 0
        third_byte := s.getD 6 0
        fourth_byte := s.getD 7 0 } ∧
    c.message_bytes = (s.drop 8).take c.data_length ∧
    c.crc = u32_from_be_bytes ((s.drop 8).drop c.data_length) ∧
    checksum_ieee ((s.take (s.length - 4)).drop 4) = c.crc := by
  unfold Chunk.try_from at h
  simp only [] at h
  split_ifs at h with h1 h2 h3 h4 h5
  · simp at h
  · simp only [Option.some.injEq, Except.ok.injEq] at h
    subst h
    simp only [List.length_drop] at h3 h4
    simp only [not_not] at h4 h5
    exact ⟨by show s.length = 12 + u32_from_be_bytes (s.take 4); omega,
      rfl, rfl, rfl, rfl, h5⟩

theorem take_four (l : List Nat) (h : 4 ≤ l.length) :
    l.take 4 = [l.getD 0 0, l.getD 1 0, l.getD 2 0, l.getD 3 0] := by
  match l with
  | a :: b :: c :: d :: t => rfl
  | [] | [_] | [_, _] | [_, _, _] => simp at h

theorem getD_drop (l : List Nat) (n k : Nat) (h : n + k < l.length) :
    (l.drop n).getD k 0 = l.getD (n + k) 0 := by
  rw [List.getD_eq_getElem _ _ (by simp only [List.length_drop]; omega),
    List.getD_eq_getElem _ _ h, List.getElem_drop]

/-- Decomposition of an accepted buffer: `s` splits as a 4-byte length
field, the type ++ payload region `TM`, and a 4-byte CRC field, and the
checksummed region of the decode is exactly `TM`. -/
theorem try_from_ok_decomp {s : List Nat} {c : Chunk}
    (h : Chunk.try_from s = some (Except.ok c)) :
    s = s.take 4 ++ ((s.drop 4).take (4 + c.data_length)
        ++ s.drop (8 + c.data_length)) ∧
    (s.drop 4).take (4 + c.data_length)
      = c.chunk_type.bytes ++ c.message_bytes ∧
    (s.take (s.length - 4)).drop 4 = (s.drop 4).take (4 + c.data_length) ∧
    (s.take 4).length = 4 ∧
    ((s.drop 4).take (4 + c.data_length)).length = 4 + c.data_length ∧
    (s.drop (8 + c.data_length)).length = 4 := by
  obtain ⟨hlen, hdl, hct, hmsg, hcrc, hsum⟩ := try_from_ok_inv h
  have hTMC : (s.drop 4).take (4 + c.data_length)
      ++ s.drop (8 + c.data_length) = s.drop 4 := by
    rw [show (8:Nat) + c.data_length = 4 + (4 + c.data_length) by omega,
      ← List.drop_drop, List.take_append_drop]
  have hTM : (s.drop 4).take (4 + c.data_length)
      = c.chunk_type.bytes ++ c.message_bytes := by
    have htk : ((s.drop 4).take (4 + c.data_length)).take 4 = (s.drop 4).take 4 := by
      rw [List.take_take]
      congr 1
      omega
    have hdr : ((s.drop 4).take (4 + c.data_length)).drop 4
        = (s.drop 8).take c.data_length := by
      rw [List.drop_take, List.drop_drop]
      congr 1
      omega
    rw [← List.take_append_drop 4 ((s.drop 4).take (4 + c.data_length)),
      htk, hdr, ← hmsg]
    congr 1
    rw [take_four _ (by simp only [List.length_drop]; omega)]
    rw [getD_drop _ _ _ (by omega), getD_drop _ _ _ (by omega),
      getD_drop _ _ _ (by omega), getD_drop _ _ _ (by omega)]
    rw [hct]
    rfl
  refine ⟨?_, hTM, ?_, ?_, ?_, ?_⟩
  · rw [hTMC, List.take_append_drop]
  · rw [show s.length - 4 = 8 + c.data_length by omega, List.drop_take,
      show (8:Nat) + c.data_length - 4 = 4 + c.data_length by omega]
  · simp only [List.length_take, List.length_drop]
    omega
  · simp only [List.length_take, List.length_drop]
    omega
  · simp only [List.length_drop]
    omega

/-! ## Claims about ChunkType -/

/-- C5 counterexample: on the 3-byte string "RuS", `from_str` panics
(`bytes.get(3).unwrap()` on `None`), modelled as `none` — it does not
return a typed error value. -/
theorem C5_counterexample : ChunkType.from_str [82, 117, 83] = none := rfl

/-- C5 (amended): `ChunkType::from_str` panics (aborts), rather than
returning a typed error, on every input string shorter than 4 bytes; on a
4-byte string it succeeds exactly when all four bytes are ASCII letters. -/
theorem C5_from_str_behavior (s : List Nat) :
    (s.length < 4 → ChunkType.from_str s = none) ∧
    (s.length = 4 →
      ((∃ ct, ChunkType.from_str s = some (Except.ok ct)) ↔
        ∀ b ∈ s, (65 ≤ b ∧ b ≤ 90) ∨ (97 ≤ b ∧ b ≤ 122))) := by
  constructor
  · intro hshort
    match s, hshort with
    | [], _ => rfl
    | [_], _ => rfl
    | [_, _], _ => rfl
    | [_, _, _], _ => rfl
  · intro hfour
    match s, hfour with
    | [a, b, c, d], _ =>
      unfold ChunkType.from_str
      simp only []
      split_ifs with hv
      · simp only [Bool.and_eq_true, Bool.or_eq_true, decide_eq_true_eq,
          ChunkType.is_valid_byte] at hv
        constructor
        · intro _
          intro x hx
          simp only [List.mem_cons, List.not_mem_nil, or_false] at hx
          rcases hx with rfl | rfl | rfl | rfl <;> tauto
        · intro _
          exact ⟨_, rfl⟩
      · constructor
        · intro ⟨ct, hct⟩
          simp at hct
        · intro hall
          exfalso
          apply hv
          have ha := hall a (by simp)
          have hb := hall b (by simp)
          have hc := hall c (by simp)
          have hd := hall d (by simp)
          simp only [Bool.and_eq_true, Bool.or_eq_true, decide_eq_true_eq,
            ChunkType.is_valid_byte]
          tauto

/-- C5 witness: `from_str` panics on the 2-byte input and succeeds on
"RuSt". -/
theorem C5_witness :
    ChunkType.from_str [82, 117] = none ∧
    ∃ ct, ChunkType.from_str [82, 117, 83, 116] = some (Except.ok ct) :=
  ⟨(C5_from_str_behavior [82, 117]).1 (by decide),
    ((C5_from_str_behavior [82, 117, 83, 116]).2 rfl).mpr (by decide)⟩

/-- C6: for every `ChunkType`, however constructed, `is_valid` is true
iff the first, second and fourth bytes are ASCII alphabetic and the
third byte is uppercase. -/
theorem C6_is_valid_iff (ct : ChunkType) :
    ct.is_valid = true ↔
      (((65 ≤ ct.first_byte ∧ ct.first_byte ≤ 90) ∨
          (97 ≤ ct.first_byte ∧ ct.first_byte ≤ 122)) ∧
        ((65 ≤ ct.second_byte ∧ ct.second_byte ≤ 90) ∨
          (97 ≤ ct.second_byte ∧ ct.second_byte ≤ 122)) ∧
        ((65 ≤ ct.fourth_byte ∧ ct.fourth_byte ≤ 90) ∨
          (97 ≤ ct.fourth_byte ∧ ct.fourth_byte ≤ 122)) ∧
        (65 ≤ ct.third_byte ∧ ct.third_byte ≤ 90)) := by
  unfold ChunkType.is_valid ChunkType.is_valid_byte ChunkType.is_upper
  simp only [Bool.and_eq_true, Bool.or_eq_true, decide_eq_true_eq]
  tauto

/-- C7 counterexample: with fourth byte 49 (the digit '1', obtainable
through `ChunkType::try_from`), `is_safe_to_copy` returns true although
49 is not a lowercase letter — the code tests "not uppercase", not
"lowercase". -/
theorem C7_counterexample :
    (ChunkType.mk 82 117 83 49).is_safe_to_copy = true ∧
      ¬(97 ≤ 49 ∧ 49 ≤ 122) := by decide

/-- C7 (amended): `is_critical`, `is_public` and `is_reserved_bit_valid`
are true iff bytes 1, 2 and 3 respectively are uppercase, and
`is_safe_to_copy` is true iff byte 4 is NOT uppercase (which coincides
with lowercase only on letter bytes). -/
theorem C7_classification (ct : ChunkType) :
    (ct.is_critical = true ↔ 65 ≤ ct.first_byte ∧ ct.first_byte ≤ 90) ∧
    (ct.is_public = true ↔ 65 ≤ ct.second_byte ∧ ct.second_byte ≤ 90) ∧
    (ct.is_reserved_bit_valid = true ↔
      65 ≤ ct.third_byte ∧ ct.third_byte ≤ 90) ∧
    (ct.is_safe_to_copy = true ↔
      ¬(65 ≤ ct.fourth_byte ∧ ct.fourth_byte ≤ 90)) := by
  unfold ChunkType.is_critical ChunkType.is_public
    ChunkType.is_reserved_bit_valid ChunkType.is_safe_to_copy
    ChunkType.is_upper
  simp only [Bool.and_eq_true, Bool.not_eq_true', Bool.and_eq_false_iff,
    decide_eq_true_eq, decide_eq_false_iff_not]
  tauto

/-! ## Claims about the Png container -/

theorem removeFirstChunk_eq_none {t : List Nat} {l : List Chunk}
    (h : ∀ ch ∈ l, ch.chunk_type.to_string_bytes ≠ t) :
    removeFirstChunk t l = none := by
  induction l with
  | nil => rfl
  | cons c rest ih =>
    unfold removeFirstChunk
    rw [if_neg (h c (List.mem_cons_self _ _)),
      ih (fun x hx => h x (List.mem_cons_of_mem _ hx))]

theorem insertBeforeLast_spec (ch : Chunk) :
    ∀ l : List Chunk, ∃ l1 l2, l = l1 ++ l2 ∧
      insertBeforeLast ch l = l1 ++ ch :: l2
  | [] => ⟨[], [], rfl, rfl⟩
  | [c] => ⟨[], [c], rfl, rfl⟩
  | c :: c2 :: rest => by
    obtain ⟨l1, l2, h1, h2⟩ := insertBeforeLast_spec ch (c2 :: rest)
    refine ⟨c :: l1, l2, by rw [List.cons_append, ← h1], ?_⟩
    show c :: insertBeforeLast ch (c2 :: rest) = (c :: l1) ++ ch :: l2
    rw [h2, List.cons_append]

/-- C8 (spec-modelled): `remove_chunk` on an absent type fails with
NotFound and leaves the chunk sequence unchanged; any failing
`remove_chunk` leaves the image unchanged; and `append_chunk` always
fully succeeds, inserting the chunk into the existing sequence. -/
theorem C8_mutation_atomicity :
    (∀ (png : Png) (t : List Nat),
      (∀ ch ∈ png.chunks, ch.chunk_type.to_string_bytes ≠ t) →
      png.remove_chunk t = (Except.error "NotFound", png)) ∧
    (∀ (png : Png) (t : List Nat) (e : String),
      (png.remove_chunk t).1 = Except.error e →
      (png.remove_chunk t).2 = png) ∧
    (∀ (png : Png) (ch : Chunk), ∃ l1 l2,
      png.chunks = l1 ++ l2 ∧
      (png.append_chunk ch).chunks = l1 ++ ch :: l2) := by
  refine ⟨?_, ?_, ?_⟩
  · intro png t h
    unfold Png.remove_chunk
    rw [removeFirstChunk_eq_none h]
  · intro png t e h
    unfold Png.remove_chunk at h ⊢
    cases hrem : removeFirstChunk t png.chunks with
    | none => rfl
    | some pr => rw [hrem] at h; simp at h
  · intro png ch
    exact insertBeforeLast_spec ch png.chunks

/-- C8 witness: removing from an image with no chunks fails with
NotFound and leaves it unchanged. -/
theorem C8_witness :
    (Png.mk []).remove_chunk [82, 117, 83, 116]
      = (Except.error "NotFound", Png.mk []) :=
  C8_mutation_atomicity.1 (Png.mk []) [82, 117, 83, 116] (by simp)

/-! ## Claims about Chunk decoding -/

/-- C3 counterexample: a 12-byte buffer declaring a 5-byte payload makes
`Chunk::try_from` panic (`Vec::split_off` past the end), modelled `none`
— it does not return a typed Truncated error value. -/
theorem C3_counterexample :
    Chunk.try_from [0, 0, 0, 5, 82, 117, 83, 116, 0, 0, 0, 0] = none := rfl

/-- C3 (amended): whenever the declared 4-byte big-endian length field
implies more bytes than the buffer contains, `Chunk::try_from` panics
(aborts abruptly, modelled `none`) rather than returning a typed error;
the embedding is a total function, so no out-of-bounds read occurs. -/
theorem C3_truncation_panics (s : List Nat) (h4 : 4 ≤ s.length)
    (h : s.length < 12 + u32_from_be_bytes (s.take 4)) :
    Chunk.try_from s = none := by
  unfold Chunk.try_from
  simp only []
  split_ifs with h1 h2 h3 htail hsum <;>
    first
      | rfl
      | (exfalso; simp only [List.length_drop] at h3 htail; omega)

/-- C3 witness: a 12-byte buffer declaring one payload byte (13 needed)
panics. -/
theorem C3_witness :
    Chunk.try_from [0, 0, 0, 1, 82, 117, 83, 116, 0, 0, 0, 0] = none :=
  C3_truncation_panics _ (by decide) (by decide)

/-- C9: `Chunk::try_from` returns Ok only when the buffer length is
exactly 12 plus the declared length; a buffer with fewer than 8 leading
bytes, or whose length otherwise differs from that exact framing
(including trailing bytes after the CRC), makes it abort abruptly
(modelled `none`) rather than return a typed error. -/
theorem C9_exact_framing :
    (∀ (s : List Nat) (c : Chunk), Chunk.try_from s = some (Except.ok c) →
      s.length = 12 + u32_from_be_bytes (s.take 4)) ∧
    (∀ s : List Nat, s.length < 8 → Chunk.try_from s = none) ∧
    (∀ s : List Nat, 8 ≤ s.length →
      s.length ≠ 12 + u32_from_be_bytes (s.take 4) →
      Chunk.try_from s = none) := by
  refine ⟨?_, ?_, ?_⟩
  · intro s c h
    obtain ⟨hlen, hdl, -⟩ := try_from_ok_inv h
    omega
  · intro s h
    unfold Chunk.try_from
    simp only []
    split_ifs <;> rfl
  · intro s h8 hne
    unfold Chunk.try_from
    simp only []
    split_ifs with h1 h2 h3 htail hsum <;>
      first
        | rfl
        | (exfalso; simp only [List.length_drop] at h3 htail; omega)

/-- C9 witness: a 13-byte buffer with one trailing byte after the CRC of
an otherwise exactly framed empty-payload chunk panics. -/
theorem C9_witness :
    Chunk.try_from [0, 0, 0, 0, 82, 117, 83, 116, 0, 0, 0, 0, 9] = none :=
  C9_exact_framing.2.2 _ (by decide) (by decide)

/-- C2: every Chunk reachable through the public interface satisfies
`crc = CRC-32/IEEE(type bytes ++ payload)`: `Chunk::new` computes the
CRC that way; a chunk accepted by `Chunk::try_from` satisfies the
invariant; and on an exactly framed buffer whose stored CRC differs
from the recomputed one, `Chunk::try_from` rejects with the checksum
error. -/
theorem C2_crc_invariant :
    (∀ (ct : ChunkType) (data : List Nat),
      (Chunk.new ct data).crc = checksum_ieee (ct.bytes ++ data)) ∧
    (∀ (s : List Nat) (c : Chunk), Chunk.try_from s = some (Except.ok c) →
      c.crc = checksum_ieee (c.chunk_type.bytes ++ c.message_bytes)) ∧
    (∀ L TM C : List Nat, L.length = 4 → C.length = 4 → 4 ≤ TM.length →
      u32_from_be_bytes L = TM.length - 4 →
      checksum_ieee TM ≠ u32_from_be_bytes C →
      Chunk.try_from (L ++ (TM ++ C))
        = some (Except.error "checksum failed")) := by
  refine ⟨fun ct data => rfl, ?_, ?_⟩
  · intro s c h
    obtain ⟨-, -, -, -, -, hsum⟩ := try_from_ok_inv h
    obtain ⟨-, hTM, hcheck, -⟩ := try_from_ok_decomp h
    rw [← hsum, hcheck, hTM]
  · intro L TM C hL hC hTM hdl hne
    rw [try_from_framed L TM C hL hC hTM hdl, if_pos hne]

/-- C2 witness: an exactly framed empty-payload "RuSt" chunk whose
stored CRC field is zero is rejected with the checksum error. -/
theorem C2_witness :
    Chunk.try_from ([0, 0, 0, 0] ++ ([82, 117, 83, 116] ++ [0, 0, 0, 0]))
      = some (Except.error "checksum failed") :=
  C2_crc_invariant.2.2 [0, 0, 0, 0] [82, 117, 83, 116] [0, 0, 0, 0]
    rfl rfl (by decide) (by decide) (by decide)

/-- On an all-ASCII chunk type, the UTF-8 bytes of the `Display` string
are exactly the four raw bytes. -/
theorem to_string_bytes_ascii (ct : ChunkType) (h : ∀ b ∈ ct.bytes, b < 128) :
    ct.to_string_bytes = ct.bytes := by
  have h1 : ct.first_byte < 128 := h _ (by simp [ChunkType.bytes])
  have h2 : ct.second_byte < 128 := h _ (by simp [ChunkType.bytes])
  have h3 : ct.third_byte < 128 := h _ (by simp [ChunkType.bytes])
  have h4 : ct.fourth_byte < 128 := h _ (by simp [ChunkType.bytes])
  unfold ChunkType.to_string_bytes charAsUtf8 ChunkType.bytes
  rw [if_pos h1, if_pos h2, if_pos h3, if_pos h4]
  rfl

/-- C1 counterexample: a chunk built by `Chunk::new` from the raw type
bytes (82, 117, 83, 200) — obtainable via `ChunkType::try_from` — has a
type byte of 200 ≥ 128, whose `Display` form serializes as two UTF-8
bytes; decoding the encoding then panics (modelled `none`) instead of
returning Ok with equal fields. -/
theorem C1_counterexample :
    Chunk.try_from ((Chunk.new (ChunkType.mk 82 117 83 200) []).as_bytes)
      = none := rfl

/-- C1 (amended): for every chunk built by `Chunk::new` from a chunk
type whose four bytes are ASCII (< 128) and a payload of fewer than
2^32 bytes (each < 256), decoding the encoding succeeds and reproduces
every field. -/
theorem C1_roundtrip (ct : ChunkType) (data : List Nat)
    (hct : ∀ b ∈ ct.bytes, b < 128) (hdata : ∀ b ∈ data, b < 256)
    (hlen : data.length < 2 ^ 32) :
    Chunk.try_from ((Chunk.new ct data).as_bytes)
      = some (Except.ok (Chunk.new ct data)) := by
  have hmod : data.length % 4294967296 = data.length :=
    Nat.mod_eq_of_lt (by norm_num at hlen ⊢; exact hlen)
  have hTMb : ∀ b ∈ ct.bytes ++ data, b < 256 := by
    intro b hb
    rcases List.mem_append.mp hb with hb | hb
    · exact lt_trans (hct b hb) (by norm_num)
    · exact hdata b hb
  have hcrc : checksum_ieee (ct.bytes ++ data) < 2 ^ 32 :=
    checksum_ieee_lt _ hTMb
  have hab : (Chunk.new ct data).as_bytes
      = u32_to_be_bytes data.length
        ++ ((ct.bytes ++ data)
          ++ u32_to_be_bytes (checksum_ieee (ct.bytes ++ data))) := by
    unfold Chunk.as_bytes Chunk.new
    simp only [to_string_bytes_ascii ct hct, hmod, List.append_assoc]
  have hTM4 : 4 ≤ (ct.bytes ++ data).length := by
    simp only [List.length_append, ChunkType.bytes, List.length_cons,
      List.length_nil]
    omega
  have hdl : u32_from_be_bytes (u32_to_be_bytes data.length)
      = (ct.bytes ++ data).length - 4 := by
    rw [u32_from_be_to_be _ hlen]
    simp only [List.length_append, ChunkType.bytes, List.length_cons,
      List.length_nil]
    omega
  rw [hab, try_from_framed _ _ _ (length_u32_to_be_bytes _)
    (length_u32_to_be_bytes _) hTM4 hdl]
  rw [if_neg (by rw [u32_from_be_to_be _ hcrc]; exact fun hh => hh rfl)]
  unfold Chunk.new
  simp only [u32_from_be_to_be _ hcrc, hmod, Option.some.injEq,
    Except.ok.injEq, Chunk.mk.injEq]
  refine ⟨?_, ?_, ?_, trivial⟩
  · simp only [List.length_append, ChunkType.bytes, List.length_cons,
      List.length_nil]
    omega
  · simp only [ChunkType.bytes, List.cons_append, List.nil_append,
      List.getD_cons_zero, List.getD_cons_succ]
  · simp only [ChunkType.bytes, List.cons_append, List.nil_append,
      List.drop_succ_cons, List.drop_zero]

/-- C1 witness: the round-trip at type "RuSt" with payload [1, 2, 3]. -/
theorem C1_witness :
    Chunk.try_from ((Chunk.new (ChunkType.mk 82 117 83 116) [1, 2, 3]).as_bytes)
      = some (Except.ok (Chunk.new (ChunkType.mk 82 117 83 116) [1, 2, 3])) :=
  C1_roundtrip (ChunkType.mk 82 117 83 116) [1, 2, 3] (by decide) (by decide)
    (by decide)

theorem charAsUtf8_length_ascii {b : Nat} (h : b < 128) :
    (charAsUtf8 b).length = 1 := by
  unfold charAsUtf8
  rw [if_pos h]
  rfl

theorem charAsUtf8_length_high {b : Nat} (h : 128 ≤ b) :
    (charAsUtf8 b).length = 2 := by
  unfold charAsUtf8
  rw [if_neg (by omega)]
  rfl

theorem charAsUtf8_length_pos (b : Nat) : 1 ≤ (charAsUtf8 b).length := by
  unfold charAsUtf8
  split <;> simp

/-- C10: for a chunk whose four type bytes are all ASCII (< 128),
`as_bytes` is exactly the 4-byte big-endian length, the 4 type bytes,
the payload, and the 4-byte big-endian CRC — 12 + payload-length bytes
in total; a type byte of 128 or above (serialized through the type's
character string) makes the encoding strictly longer than that framing. -/
theorem C10_as_bytes_framing (c : Chunk) :
    ((∀ b ∈ c.chunk_type.bytes, b < 128) →
      c.as_bytes = u32_to_be_bytes c.data_length ++ c.chunk_type.bytes
        ++ c.message_bytes ++ u32_to_be_bytes c.crc ∧
      c.as_bytes.length = 12 + c.message_bytes.length) ∧
    ((∃ b ∈ c.chunk_type.bytes, 128 ≤ b) →
      12 + c.message_bytes.length < c.as_bytes.length) := by
  constructor
  · intro h
    have he : c.as_bytes = u32_to_be_bytes c.data_length ++ c.chunk_type.bytes
        ++ c.message_bytes ++ u32_to_be_bytes c.crc := by
      unfold Chunk.as_bytes
      rw [to_string_bytes_ascii _ h]
    refine ⟨he, ?_⟩
    rw [he]
    simp only [List.length_append, length_u32_to_be_bytes,
      ChunkType.bytes, List.length_cons, List.length_nil]
    omega
  · intro ⟨b, hb, hbe⟩
    unfold Chunk.as_bytes ChunkType.to_string_bytes
    simp only [List.length_append, length_u32_to_be_bytes]
    have p1 := charAsUtf8_length_pos c.chunk_type.first_byte
    have p2 := charAsUtf8_length_pos c.chunk_type.second_byte
    have p3 := charAsUtf8_length_pos c.chunk_type.third_byte
    have p4 := charAsUtf8_length_pos c.chunk_type.fourth_byte
    simp only [ChunkType.bytes, List.mem_cons, List.not_mem_nil,
      or_false] at hb
    rcases hb with rfl | rfl | rfl | rfl <;>
      [have h2 := charAsUtf8_length_high hbe;
       have h2 := charAsUtf8_length_high hbe;
       have h2 := charAsUtf8_length_high hbe;
       have h2 := charAsUtf8_length_high hbe] <;> omega

/-- C10 witness: framing at an ASCII-typed chunk and strict growth at a
chunk whose type carries the byte 200. -/
theorem C10_witness :
    ((Chunk.mk 2 (ChunkType.mk 82 117 83 116) [9, 9] 7).as_bytes
      = u32_to_be_bytes (Chunk.mk 2 (ChunkType.mk 82 117 83 116) [9, 9] 7).data_length
        ++ (Chunk.mk 2 (ChunkType.mk 82 117 83 116) [9, 9] 7).chunk_type.bytes
        ++ (Chunk.mk 2 (ChunkType.mk 82 117 83 116) [9, 9] 7).message_bytes
        ++ u32_to_be_bytes (Chunk.mk 2 (ChunkType.mk 82 117 83 116) [9, 9] 7).crc ∧
      (Chunk.mk 2 (ChunkType.mk 82 117 83 116) [9, 9] 7).as_bytes.length
        = 12 + (Chunk.mk 2 (ChunkType.mk 82 117 83 116) [9, 9] 7).message_bytes.length) ∧
    12 + (Chunk.mk 2 (ChunkType.mk 82 117 83 200) [9, 9] 7).message_bytes.length
      < (Chunk.mk 2 (ChunkType.mk 82 117 83 200) [9, 9] 7).as_bytes.length :=
  ⟨(C10_as_bytes_framing (Chunk.mk 2 (ChunkType.mk 82 117 83 116) [9, 9] 7)).1
      (by decide),
    (C10_as_bytes_framing (Chunk.mk 2 (ChunkType.mk 82 117 83 200) [9, 9] 7)).2
      ⟨200, by decide, by decide⟩⟩

theorem xor_two_pow_ne (x j : Nat) : x ^^^ 2 ^ j ≠ x := by
  intro h
  have h0 : x ^^^ 2 ^ j = x ^^^ 0 := by rw [Nat.xor_zero]; exact h
  have h1 := Nat.xor_right_inj.mp h0
  have h2 : 0 < 2 ^ j := Nat.pow_pos (by omega)
  omega

theorem u32_from_be_bytes_set_ne (C : List Nat) (hC : C.length = 4)
    (hCb : ∀ b ∈ C, b < 256) (k : Nat) (hk : k < 4) (w : Nat)
    (hw : w < 256) (hne : w ≠ C.getD k 0) :
    u32_from_be_bytes (C.set k w) ≠ u32_from_be_bytes C := by
  match C, hC with
  | [c0, c1, c2, c3], _ =>
    have h0 : c0 < 256 := hCb c0 (by simp)
    have h1 : c1 < 256 := hCb c1 (by simp)
    have h2 : c2 < 256 := hCb c2 (by simp)
    have h3 : c3 < 256 := hCb c3 (by simp)
    interval_cases k <;>
      (simp only [List.set_cons_zero, List.set_cons_succ,
        List.getD_cons_zero, List.getD_cons_succ] at hne ⊢
       unfold u32_from_be_bytes
       simp only [List.getD_cons_zero, List.getD_cons_succ]
       omega)

/-- C4: for every byte buffer accepted by `Chunk::try_from`, flipping
any single bit of any byte from position 4 on — i.e. in the chunk-type
bytes, the payload bytes, or the stored 4-byte CRC field — yields a
buffer rejected with the checksum error. -/
theorem C4_bitflip_rejected (s : List Nat) (c : Chunk)
    (hbytes : ∀ b ∈ s, b < 256)
    (hok : Chunk.try_from s = some (Except.ok c))
    (i j : Nat) (hi4 : 4 ≤ i) (hilen : i < s.length) (hj : j < 8) :
    Chunk.try_from (s.set i (s.getD i 0 ^^^ 2 ^ j))
      = some (Except.error "checksum failed") := by
  obtain ⟨hlen, hdlv, -, -, hcrcv, hsum⟩ := try_from_ok_inv hok
  obtain ⟨hs, -, hcheck, hL4, hTMlen, hC4⟩ := try_from_ok_decomp hok
  set L := s.take 4 with hLdef
  set TM := (s.drop 4).take (4 + c.data_length) with hTMdef
  set C := s.drop (8 + c.data_length) with hCdef
  have hTMb : ∀ b ∈ TM, b < 256 := fun b hb =>
    hbytes b (List.drop_subset 4 s (List.take_subset _ _ hb))
  have hCb : ∀ b ∈ C, b < 256 := fun b hb =>
    hbytes b (List.drop_subset _ _ hb)
  have h2j : (2 : Nat) ^ j < 256 := by
    have h := Nat.pow_le_pow_right (show 0 < 2 by omega)
      (show j ≤ 7 by omega)
    omega
  have hsv : s.getD i 0 < 256 := by
    rw [List.getD_eq_getElem _ _ hilen]
    exact hbytes _ (List.getElem_mem hilen)
  have hw : s.getD i 0 ^^^ 2 ^ j < 256 := by
    have h8 := @Nat.xor_lt_two_pow (s.getD i 0) (2 ^ j) 8
      (by omega) (by omega)
    omega
  have hsumTM : checksum_ieee TM = c.crc := by
    rw [← hcheck]
    exact hsum
  have hcrcC : u32_from_be_bytes C = c.crc := by
    rw [hcrcv, hCdef, List.drop_drop]
  by_cases hiTM : i < 8 + c.data_length
  · -- the flip lands in the chunk-type or payload region TM
    have hgd : s.getD i 0 = TM.getD (i - 4) 0 := by
      conv_lhs => rw [hs]
      rw [List.getD_append_right _ _ _ _ (by rw [hL4]; omega), hL4,
        List.getD_append _ _ _ _ (by rw [hTMlen]; omega)]
    rw [hgd] at hw ⊢
    have hset : s.set i (TM.getD (i - 4) 0 ^^^ 2 ^ j)
        = L ++ (TM.set (i - 4) (TM.getD (i - 4) 0 ^^^ 2 ^ j) ++ C) := by
      conv_lhs => rw [hs]
      rw [List.set_append, if_neg (by rw [hL4]; omega), hL4,
        List.set_append, if_pos (by rw [hTMlen]; omega)]
    have hcond : checksum_ieee (TM.set (i - 4) (TM.getD (i - 4) 0 ^^^ 2 ^ j))
        ≠ u32_from_be_bytes C := by
      rw [hcrcC, ← hsumTM]
      exact checksum_ieee_set_ne TM hTMb (by rw [hTMlen]; omega) hw
        (xor_two_pow_ne _ _)
    rw [hset, try_from_framed L _ C hL4 hC4
      (by rw [List.length_set, hTMlen]; omega)
      (by rw [List.length_set, hTMlen, ← hdlv]; omega), if_pos hcond]
  · -- the flip lands in the stored CRC field C
    have hgd : s.getD i 0 = C.getD (i - 4 - (4 + c.data_length)) 0 := by
      conv_lhs => rw [hs]
      rw [List.getD_append_right _ _ _ _ (by rw [hL4]; omega), hL4,
        List.getD_append_right _ _ _ _ (by rw [hTMlen]; omega), hTMlen]
    rw [hgd] at hw ⊢
    have hset : s.set i (C.getD (i - 4 - (4 + c.data_length)) 0 ^^^ 2 ^ j)
        = L ++ (TM ++ C.set (i - 4 - (4 + c.data_length))
            (C.getD (i - 4 - (4 + c.data_length)) 0 ^^^ 2 ^ j)) := by
      conv_lhs => rw [hs]
      rw [List.set_append, if_neg (by rw [hL4]; omega), hL4,
        List.set_append, if_neg (by rw [hTMlen]; omega), hTMlen]
    have hcond : checksum_ieee TM
        ≠ u32_from_be_bytes (C.set (i - 4 - (4 + c.data_length))
            (C.getD (i - 4 - (4 + c.data_length)) 0 ^^^ 2 ^ j)) := by
      rw [hsumTM, ← hcrcC]
      exact fun h => u32_from_be_bytes_set_ne C hC4 hCb _
        (by rw [hlen] at hilen; omega) _ hw (xor_two_pow_ne _ _) h.symm
    rw [hset, try_from_framed L TM _ hL4 (by rw [List.length_set, hC4])
      (by omega) (by rw [← hdlv, hTMlen]; omega), if_pos hcond]

/-- C4 witness: flipping the low bit of the first chunk-type byte of a
valid empty-payload "RuSt" chunk buffer is rejected with the checksum
error. -/
theorem C4_witness :
    Chunk.try_from
      (([0, 0, 0, 0, 82, 117, 83, 116]
          ++ u32_to_be_bytes (checksum_ieee [82, 117, 83, 116])).set 4
        ((([0, 0, 0, 0, 82, 117, 83, 116]
          ++ u32_to_be_bytes (checksum_ieee [82, 117, 83, 116])).getD 4 0)
          ^^^ 2 ^ 0))
      = some (Except.error "checksum failed") :=
  C4_bitflip_rejected
    ([0, 0, 0, 0, 82, 117, 83, 116]
      ++ u32_to_be_bytes (checksum_ieee [82, 117, 83, 116]))
    (Chunk.mk 0 (ChunkType.mk 82 117 83 116) []
      (checksum_ieee [82, 117, 83, 116]))
    (by decide) (by rfl) 4 0 (by decide) (by decide) (by decide)

end Pngme
